import Mathlib

/-!
Shallow embedding of `src/expense_tracker.py` (classes `Expense` and
`ExpenseTracker`), together with theorems settling the specification
claims about it.

Modelling conventions:
* Python `float` amounts are modelled as exact rationals (`ℚ`).
* `datetime.strptime(s, "%Y-%m-%d")` is modelled by `parseDate`.  The
  underlying CPython implementation matches the whole string against a
  pattern equivalent to `\d\d\d\d-(1[0-2]|0[1-9]|[1-9])-(3[01]|[12]\d|0[1-9]|[1-9])`
  (year exactly four digits, month and day one or two digits) and then
  builds a `datetime`, which additionally requires a real calendar date
  with year at least 1.  Since the digit groups cannot contain a dash,
  matching that pattern is equivalent to splitting the string at dashes
  into exactly three digit groups of the right lengths and checking the
  numeric ranges, which is how `parseDate` is written.
* Interactive `input()` values are passed as explicit arguments; the
  result of `float(...)` applied to a raw token is passed as
  `Option ℚ` (`none` models a `ValueError`).
* Writes to `self.expenses` become explicit state passing: each
  operation returns the new list of expenses; read-only operations
  return the (unchanged) list together with their output.
-/

/-- Character is an ASCII decimal digit (what `\d` matches on the inputs
relevant here). -/
def isDig (c : Char) : Bool := '0' ≤ c && c ≤ '9'

/-- Numeric value of a digit string (most significant digit first). -/
def digitsVal (cs : List Char) : Nat := cs.foldl (fun a c => 10 * a + (c.toNat - 48)) 0

/-- Split a character list at every dash, keeping (possibly empty) groups. -/
def splitDash : List Char → List (List Char)
  | [] => [[]]
  | c :: rest =>
      if c = '-' then [] :: splitDash rest
      else (splitDash rest).modifyHead (fun g => c :: g)

/-- Gregorian leap-year test, as used by Python's `datetime`. -/
def isLeap (y : Nat) : Bool := (y % 4 == 0 && y % 100 != 0) || y % 400 == 0

/-- Number of days in a month of a given year. -/
def daysInMonth (y m : Nat) : Nat :=
  if m = 2 then (if isLeap y then 29 else 28)
  else if m = 4 ∨ m = 6 ∨ m = 9 ∨ m = 11 then 30 else 31

/-- Model of `datetime.strptime(s, "%Y-%m-%d")`: `some (year, month, day)`
on success, `none` when a `ValueError` is raised.  See the header comment
for why this split-based formulation matches CPython's `_strptime`. -/
def parseDate (s : String) : Option (Nat × Nat × Nat) :=
  match splitDash s.data with
  | [ys, ms, ds] =>
    if ys.length = 4 && ys.all isDig
        && (ms.length = 1 || ms.length = 2) && ms.all isDig
        && (ds.length = 1 || ds.length = 2) && ds.all isDig then
      let y := digitsVal ys
      let mo := digitsVal ms
      let da := digitsVal ds
      if 1 ≤ mo && mo ≤ 12 && 1 ≤ da && da ≤ 31
          && 1 ≤ y && da ≤ daysInMonth y mo then
        some (y, mo, da)
      else none
    else none
  | _ => none

/-- Model of `ExpenseTracker.validate_date`: true iff `strptime` succeeds. -/
def validate_date (s : String) : Bool := (parseDate s).isSome

/-- Days in the year strictly before month `m`. -/
def daysBeforeMonth (y m : Nat) : Nat :=
  (List.range (m - 1)).foldl (fun a i => a + daysInMonth y (i + 1)) 0

/-- Ordinal of the date inside its year (Jan 1 = 1). -/
def dayOfYear (y m d : Nat) : Nat := daysBeforeMonth y m + d

/-- Days in all years strictly before year `y` (proleptic Gregorian). -/
def daysBeforeYear (y : Nat) : Nat :=
  365 * (y - 1) + ((y - 1) / 4 - (y - 1) / 100 + (y - 1) / 400)

/-- Proleptic-Gregorian ordinal of a date, with `0001-01-01` as day 1
(the convention of Python's `datetime.toordinal`). -/
def dateOrdinalYMD (y m d : Nat) : Nat := daysBeforeYear y + dayOfYear y m d

/-- ISO weekday of a date: 1 = Monday … 7 = Sunday. -/
def weekdayYMD (y m d : Nat) : Nat := (dateOrdinalYMD y m d - 1) % 7 + 1

/-- Whether year `y` has 53 ISO weeks (Jan 1 or Dec 31 falls on Thursday). -/
def isLongYear (y : Nat) : Bool := weekdayYMD y 1 1 == 4 || weekdayYMD y 12 31 == 4

/-- ISO-8601 week number of a date, the model of
`datetime.isocalendar()[1]`. -/
def isoWeek (y m d : Nat) : Nat :=
  let doy := dayOfYear y m d
  let wd := weekdayYMD y m d
  let w := (doy + 10 - wd) / 7
  if w = 0 then
    if isLongYear (y - 1) then 53 else 52
  else if w = 53 then
    if isLongYear y then 53 else 1
  else w

/-- Ordinal of a date given as a string, through `parseDate` (0 when the
string is not a valid date); used only to state chronology facts. -/
def dateOrdinal (s : String) : Nat :=
  match parseDate s with
  | some (y, m, d) => dateOrdinalYMD y m d
  | none => 0

/-- Model of class `Expense`: one record with amount, category and date.
Amounts are exact rationals, categories and dates the stored strings. -/
structure Expense where
  amount : ℚ
  category : String
  date : String
  deriving DecidableEq, Repr

/-- JSON values, the shape of data handled by `json.load`/`json.dump`. -/
inductive Json where
  | num (q : ℚ)
  | str (s : String)
  | arr (items : List Json)
  | obj (fields : List (String × Json))

/-- Dictionary access `fields[key]` on a JSON object, `none` on a missing
key (a Python `KeyError`). -/
def jlookup : List (String × Json) → String → Option Json
  | [], _ => none
  | (k, v) :: rest, key => if k = key then some v else jlookup rest key

/-- Numeric payload of a dynamically typed JSON value (the interactive
program only ever stores numbers in the `amount` field). -/
def Json.asNum : Json → ℚ
  | .num q => q
  | _ => 0

/-- String payload of a dynamically typed JSON value. -/
def Json.asStr : Json → String
  | .str s => s
  | _ => ""

/-- Model of `Expense.to_dict`. -/
def to_dict (e : Expense) : List (String × Json) :=
  [("amount", .num e.amount), ("category", .str e.category), ("date", .str e.date)]

/-- Model of `Expense.from_dict`: the three subscript accesses happen
left to right, so the first absent key raises the `KeyError`; a non-dict
argument raises a `TypeError` at the first subscript. -/
def from_dict (data : Json) : Except String Expense :=
  match data with
  | .obj fields =>
    match jlookup fields "amount" with
    | none => .error "KeyError: amount"
    | some a =>
      match jlookup fields "category" with
      | none => .error "KeyError: category"
      | some c =>
        match jlookup fields "date" with
        | none => .error "KeyError: date"
        | some d => .ok ⟨a.asNum, c.asStr, d.asStr⟩
  | _ => .error "TypeError"

/-- Model of `ExpenseTracker.save_to_file`: the document written to the
file is the JSON array of the records' dicts, in ledger order. -/
def save_content (es : List Expense) : Json :=
  .arr (es.map (fun e => .obj (to_dict e)))

/-- What the persisted file can look like when `load_from_file` runs. -/
inductive FileState where
  | missing
  | notJson
  | json (v : Json)

/-- Possible outcomes of `load_from_file`.  `crashed` models an exception
(such as `KeyError`) raised inside the list comprehension and caught by
no handler in the program, which therefore terminates the process. -/
inductive LoadOutcome where
  | loaded (es : List Expense)
  | freshStart
  | corruptStart
  | crashed (err : String)
  deriving DecidableEq, Repr

/-- Whether a load outcome is an uncaught exception (process death). -/
def LoadOutcome.isCrashed : LoadOutcome → Bool
  | .crashed _ => true
  | _ => false

/-- The list comprehension `[Expense.from_dict(item) for item in data]`:
items are converted left to right and the first exception propagates. -/
def parseItems : List Json → Except String (List Expense)
  | [] => .ok []
  | item :: rest =>
    match from_dict item with
    | .error e => .error e
    | .ok exp =>
      match parseItems rest with
      | .error e => .error e
      | .ok es => .ok (exp :: es)

/-- Model of `ExpenseTracker.load_from_file`.  `current` is the ledger
before the call (it is reassigned only when the whole comprehension
succeeds).  Only `FileNotFoundError` and `json.JSONDecodeError` are
caught; iterating a non-array document or hitting a missing key raises
through (`crashed`). -/
def load_from_file (current : List Expense) : FileState → List Expense × LoadOutcome
  | .missing => (current, .freshStart)
  | .notJson => (current, .corruptStart)
  | .json v =>
    match v with
    | .arr items =>
      match parseItems items with
      | .ok es => (es, .loaded es)
      | .error e => (current, .crashed e)
    | _ => (current, .crashed "TypeError")

/-- Result tag of one `add_expenses` call. -/
inductive AddResult where
  | invalidAmount
  | invalidDate
  | added
  deriving DecidableEq, Repr

/-- State and effects after one `add_expenses` call. -/
structure AddOutcome where
  expenses : List Expense
  saved : Bool
  result : AddResult
  deriving DecidableEq, Repr

/-- Model of `ExpenseTracker.add_expenses`.  `amountTok` is the result of
`float(...)` on the first input (`none` = `ValueError`); `dateInput` is
the stripped third input and `today` the current date used when it is
empty.  `saved` records whether `save_to_file` was called. -/
def add_expenses (es : List Expense) (amountTok : Option ℚ)
    (category dateInput today : String) : AddOutcome :=
  match amountTok with
  | none => ⟨es, false, .invalidAmount⟩
  | some a =>
    let date := if dateInput = "" then today else dateInput
    if validate_date date then ⟨es ++ [⟨a, category, date⟩], true, .added⟩
    else ⟨es, false, .invalidDate⟩

/-- Field updates of `edit_expense` on the selected record.  `newAmount`
models the stripped first input: `none` = empty (keep), `some none` =
non-empty but `float` fails (keep, report), `some (some q)` = parses to
`q`.  `newCategory` and `newDate` are the stripped raw inputs. -/
def edit_fields (e : Expense) (newAmount : Option (Option ℚ))
    (newCategory newDate : String) : Expense :=
  let e1 := match newAmount with
    | none => e
    | some none => e
    | some (some q) => { e with amount := q }
  let e2 := if newCategory = "" then e1 else { e1 with category := newCategory }
  if newDate = "" then e2
  else if validate_date newDate then { e2 with date := newDate }
  else e2

/-- Model of `ExpenseTracker.edit_expense` for a numeric selection
`choice` (1-based).  Returns the new ledger and whether `save_to_file`
was called. -/
def edit_expense (es : List Expense) (choice : Nat) (newAmount : Option (Option ℚ))
    (newCategory newDate : String) : List Expense × Bool :=
  if es.isEmpty then (es, false)
  else if h : 1 ≤ choice ∧ choice ≤ es.length then
    (es.set (choice - 1)
      (edit_fields (es.get ⟨choice - 1, by omega⟩) newAmount newCategory newDate), true)
  else (es, false)

/-- Total spending for a category (choice 1 of `view_summary`): matching
is case-insensitive via `.lower()` on both sides. -/
def total_for_category (es : List Expense) (category : String) : ℚ :=
  ((es.filter (fun e => e.category.toLower == category.toLower)).map (·.amount)).sum

/-- Total overall spending (choice 2 of `view_summary`). -/
def total_overall (es : List Expense) : ℚ :=
  (es.map (·.amount)).sum

/-- Time granularity chosen in the spending-over-time sub-menu. -/
inductive Granularity where
  | daily
  | monthly
  | weekly
  deriving DecidableEq, Repr

/-- Zero left-padding to two characters, as `strftime("%m")` produces. -/
def pad2 (n : Nat) : String := if n < 10 then "0" ++ toString n else toString n

/-- Bucket key of a parsed date, exactly as built in `view_summary`:
daily uses the stored string, monthly `strftime("%Y-%m")`, weekly the
f-string `f"{year}-W{week}"` (calendar year, unpadded ISO week). -/
def bucketKey (g : Granularity) (dateStr : String) (y m d : Nat) : String :=
  match g with
  | .daily => dateStr
  | .monthly => toString y ++ "-" ++ pad2 m
  | .weekly => toString y ++ "-W" ++ toString (isoWeek y m d)

/-- Bucket key of a date string (junk `""` on unparsable dates, which are
skipped before the key is ever built). -/
def bucketKeyOf (g : Granularity) (s : String) : String :=
  match parseDate s with
  | some (y, m, d) => bucketKey g s y m d
  | none => ""

/-- One `summary[key] += amount` step on a `defaultdict(float)` viewed as
an insertion-ordered association list. -/
def addToTotals : List (String × ℚ) → String → ℚ → List (String × ℚ)
  | [], k, v => [(k, v)]
  | (k0, v0) :: rest, k, v =>
    if k0 = k then (k0, v0 + v) :: rest
    else (k0, v0) :: addToTotals rest k v

/-- The accumulation loop of the spending-over-time summary: expenses
whose date fails `validate_date` are skipped, the rest are added at
their bucket key. -/
def summarize (es : List Expense) (g : Granularity) : List (String × ℚ) :=
  es.foldl
    (fun m e =>
      match parseDate e.date with
      | none => m
      | some (y, mo, d) => addToTotals m (bucketKey g e.date y mo d) e.amount)
    []

/-- Python's string comparison, which orders strings lexicographically by
code point: the model of the `<=` used by `sorted` on the bucket keys. -/
def charsLe : List Char → List Char → Bool
  | [], _ => true
  | _ :: _, [] => false
  | a :: as, b :: bs =>
    if a < b then true
    else if b < a then false
    else charsLe as bs

/-- Model of `sorted(summary.items())`: the bucket keys are pairwise
distinct, so sorting the pairs by key yields the same list Python's
stable sort produces on the (key, value) tuples. -/
def sortPairs (l : List (String × ℚ)) : List (String × ℚ) :=
  List.insertionSort (fun a b => charsLe a.1.data b.1.data = true) l

/-- The printed spending-over-time summary (choice 3 of `view_summary`),
in emission order. -/
def time_summary (es : List Expense) (g : Granularity) : List (String × ℚ) :=
  sortPairs (summarize es g)

/-- Request selected in the `view_summary` sub-menu. -/
inductive SummaryReq where
  | byCategory (c : String)
  | overall
  | overTime (g : Granularity)

/-- Output printed by `view_summary`. -/
inductive SummaryOut where
  | noExpenses
  | categoryTotal (c : String) (total : ℚ)
  | overallTotal (total : ℚ)
  | overTimeRows (rows : List (String × ℚ))
  deriving DecidableEq, Repr

/-- Model of `ExpenseTracker.view_summary`: a read-only operation, so the
ledger is returned alongside the printed output. -/
def view_summary (es : List Expense) (req : SummaryReq) : List Expense × SummaryOut :=
  if es.isEmpty then (es, .noExpenses)
  else
    match req with
    | .byCategory c => (es, .categoryTotal c (total_for_category es c))
    | .overall => (es, .overallTotal (total_overall es))
    | .overTime g => (es, .overTimeRows (time_summary es g))

/-- The `category_totals` accumulation of `graphical_summary`: keyed by
the exact stored category string. -/
def category_totals (es : List Expense) : List (String × ℚ) :=
  es.foldl (fun m e => addToTotals m e.category e.amount) []

/-- Association-list lookup, the reading counterpart of `addToTotals`. -/
def alLookup : List (String × ℚ) → String → Option ℚ
  | [], _ => none
  | (k0, v) :: rest, k => if k0 = k then some v else alLookup rest k

/-- Model of `ExpenseTracker.graphical_summary`: returns the unchanged
ledger together with the data handed to the chart —
`categories = list(category_totals.keys())` and
`amounts = [category_totals[cat] for cat in categories]`. -/
def graphical_summary (es : List Expense) : List Expense × (List String × List ℚ) :=
  if es.isEmpty then (es, ([], []))
  else
    let totals := category_totals es
    let categories := totals.map (·.1)
    (es, (categories, categories.map (fun c => (alLookup totals c).getD 0)))

/-- Strict calendar-date grammar `YYYY-MM-DD` exactly as the spec words
it: four digits, dash, two digits, dash, two digits.  This is the
spec-side definition used to compare `validate_date` against the claim. -/
def specStrictDateGrammar (s : String) : Bool :=
  match s.data with
  | [y1, y2, y3, y4, h1, m1, m2, h2, d1, d2] =>
    isDig y1 && isDig y2 && isDig y3 && isDig y4 && h1 == '-'
      && isDig m1 && isDig m2 && h2 == '-' && isDig d1 && isDig d2
  | _ => false

/-- Year, month and day values read off a strictly formatted date string
(zeros on any other shape). -/
def strictVals (s : String) : Nat × Nat × Nat :=
  match s.data with
  | [y1, y2, y3, y4, _, m1, m2, _, d1, d2] =>
    (digitsVal [y1, y2, y3, y4], digitsVal [m1, m2], digitsVal [d1, d2])
  | _ => (0, 0, 0)

/-- Spec-side notion of a real calendar date (`datetime` accepts the
triple): year at least 1, month 1–12, day within the month. -/
def specRealDate (y mo da : Nat) : Bool :=
  1 ≤ y && 1 ≤ mo && mo ≤ 12 && 1 ≤ da && da ≤ daysInMonth y mo

/-- Adding an amount to an optional running total, as `defaultdict(float)`
does on `+=` (missing key counts as zero). -/
def addVal : Option ℚ → ℚ → ℚ
  | none, v => v
  | some w, v => w + v

/-- Generic shape of the two accumulation loops: records passing the
filter `p` are added at key `key` with value `val`, the rest skipped. -/
def accumStep (p : Expense → Bool) (key : Expense → String) (val : Expense → ℚ)
    (m : List (String × ℚ)) (e : Expense) : List (String × ℚ) :=
  if p e then addToTotals m (key e) (val e) else m

/-- Sum of the amounts the time-bucketed summary should report for one
bucket: all validly dated records of the ledger whose bucket key is `k`. -/
def bucketTotal (es : List Expense) (g : Granularity) (k : String) : ℚ :=
  ((es.filter (fun e => validate_date e.date && bucketKeyOf g e.date == k)).map (·.amount)).sum

theorem isDig_ne_dash {c : Char} (h : isDig c = true) : c ≠ '-' := by
  intro he
  subst he
  simp [isDig] at h

theorem daysInMonth_le_31 (y m : Nat) : daysInMonth y m ≤ 31 := by
  unfold daysInMonth
  split <;> [skip; split] <;> first | omega | (split <;> omega)

theorem splitDash_no_dash (a : List Char) (h : '-' ∉ a) : splitDash a = [a] := by
  induction a with
  | nil => rfl
  | cons c rest ih =>
    have hc : ¬(c = '-') := fun he => h (he ▸ List.mem_cons_self c rest)
    simp [splitDash, hc, ih (fun hm => h (List.mem_cons_of_mem c hm))]

theorem splitDash_append (a t : List Char) (h : '-' ∉ a) :
    splitDash (a ++ '-' :: t) = a :: splitDash t := by
  induction a with
  | nil => simp [splitDash]
  | cons c rest ih =>
    have hc : ¬(c = '-') := fun he => h (he ▸ List.mem_cons_self c rest)
    simp [splitDash, hc, ih (fun hm => h (List.mem_cons_of_mem c hm))]

theorem addVal_add (o : Option ℚ) (a b : ℚ) : addVal o (a + b) = addVal o a + b := by
  cases o
  · simp [addVal]
  · simp [addVal]
    ring

theorem alLookup_addToTotals (m : List (String × ℚ)) (k : String) (v : ℚ) (k' : String) :
    alLookup (addToTotals m k v) k' =
      if k' = k then some (addVal (alLookup m k) v) else alLookup m k' := by
  induction m with
  | nil =>
    by_cases h : k' = k
    · subst h; simp [addToTotals, alLookup, addVal]
    · simp [addToTotals, alLookup, h, Ne.symm h]
  | cons hd tl ih =>
    obtain ⟨k0, v0⟩ := hd
    by_cases h0 : k0 = k
    · subst h0
      by_cases h : k' = k0
      · subst h; simp [addToTotals, alLookup, addVal]
      · simp [addToTotals, alLookup, h, Ne.symm h]
    · by_cases h : k' = k
      · subst h
        have h0' : k0 ≠ k' := h0
        simp [addToTotals, alLookup, h0, h0', ih]
      · simp [addToTotals, alLookup, h0, h, ih]

theorem alLookup_mem {l : List (String × ℚ)} {k : String} {v : ℚ}
    (h : alLookup l k = some v) : (k, v) ∈ l := by
  induction l with
  | nil => simp [alLookup] at h
  | cons hd tl ih =>
    obtain ⟨k0, v0⟩ := hd
    by_cases h0 : k0 = k
    · subst h0
      simp [alLookup] at h
      simp [h]
    · simp [alLookup, h0] at h
      exact List.mem_cons_of_mem _ (ih h)

theorem foldl_accum_lookup (p : Expense → Bool) (key : Expense → String) (val : Expense → ℚ)
    (es : List Expense) :
    ∀ (m : List (String × ℚ)) (k : String),
      alLookup (es.foldl (accumStep p key val) m) k =
        if es.any (fun e => p e && key e == k) then
          some (addVal (alLookup m k) (((es.filter (fun e => p e && key e == k)).map val).sum))
        else alLookup m k := by
  induction es with
  | nil => intro m k; simp
  | cons e tl ih =>
    intro m k
    rw [List.foldl_cons]
    by_cases hp : p e = true
    · by_cases hk : key e = k
      · have hstep : accumStep p key val m e = addToTotals m k (val e) := by
          simp [accumStep, hp, hk]
        rw [hstep, ih]
        by_cases ht : tl.any (fun x => p x && key x == k) = true
        · rw [if_pos ht, if_pos (by simp [List.any_cons, hp, hk, ht])]
          rw [alLookup_addToTotals, if_pos rfl]
          rw [List.filter_cons_of_pos (by simp [hp, hk])]
          rw [List.map_cons, List.sum_cons, addVal_add]
          cases alLookup m k <;> simp [addVal]
        · rw [if_neg ht, if_pos (by simp [List.any_cons, hp, hk])]
          rw [alLookup_addToTotals, if_pos rfl]
          have hnil : tl.filter (fun x => p x && key x == k) = [] := by
            rw [List.filter_eq_nil_iff]
            intro x hx hpx
            exact ht (List.any_eq_true.mpr ⟨x, hx, hpx⟩)
          rw [List.filter_cons_of_pos (by simp [hp, hk]), hnil]
          simp [addVal]
      · have hstep : accumStep p key val m e = addToTotals m (key e) (val e) := by
          simp [accumStep, hp]
        have hlk : alLookup (addToTotals m (key e) (val e)) k = alLookup m k := by
          rw [alLookup_addToTotals, if_neg (fun h => hk h.symm)]
        rw [hstep, ih, hlk]
        have hcond : (e :: tl).any (fun x => p x && key x == k)
            = tl.any (fun x => p x && key x == k) := by
          simp [List.any_cons, hk]
        have hfilt : (e :: tl).filter (fun x => p x && key x == k)
            = tl.filter (fun x => p x && key x == k) :=
          List.filter_cons_of_neg (by simp [hk])
        rw [hcond, hfilt]
    · have hstep : accumStep p key val m e = m := by simp [accumStep, hp]
      rw [hstep, ih]
      have hcond : (e :: tl).any (fun x => p x && key x == k)
          = tl.any (fun x => p x && key x == k) := by
        simp [List.any_cons, hp]
      have hfilt : (e :: tl).filter (fun x => p x && key x == k)
          = tl.filter (fun x => p x && key x == k) :=
        List.filter_cons_of_neg (by simp [hp])
      rw [hcond, hfilt]

theorem valuesSum_addToTotals (m : List (String × ℚ)) (k : String) (v : ℚ) :
    ((addToTotals m k v).map (·.2)).sum = (m.map (·.2)).sum + v := by
  induction m with
  | nil => simp [addToTotals]
  | cons hd tl ih =>
    obtain ⟨k0, v0⟩ := hd
    by_cases h : k0 = k
    · simp [addToTotals, h, ih]
      ring
    · simp [addToTotals, h, ih]
      ring

theorem foldl_accum_sum (p : Expense → Bool) (key : Expense → String) (val : Expense → ℚ)
    (es : List Expense) :
    ∀ m : List (String × ℚ),
      ((es.foldl (accumStep p key val) m).map (·.2)).sum
        = (m.map (·.2)).sum + ((es.filter p).map val).sum := by
  induction es with
  | nil => intro m; simp
  | cons e tl ih =>
    intro m
    rw [List.foldl_cons]
    by_cases hp : p e = true
    · have hstep : accumStep p key val m e = addToTotals m (key e) (val e) := by
        simp [accumStep, hp]
      rw [hstep, ih, List.filter_cons_of_pos hp, valuesSum_addToTotals, List.map_cons,
        List.sum_cons]
      ring
    · have hstep : accumStep p key val m e = m := by simp [accumStep, hp]
      rw [hstep, ih, List.filter_cons_of_neg hp]

theorem summarize_eq_accum (es : List Expense) (g : Granularity) :
    summarize es g =
      es.foldl
        (accumStep (fun e => validate_date e.date) (fun e => bucketKeyOf g e.date)
          (fun e => e.amount)) [] := by
  unfold summarize
  congr 1
  funext m e
  unfold accumStep validate_date bucketKeyOf
  cases h : parseDate e.date with
  | none => simp [h]
  | some ymd =>
    obtain ⟨y, mo, d⟩ := ymd
    simp [h]

theorem category_totals_eq_accum (es : List Expense) :
    category_totals es =
      es.foldl (accumStep (fun _ => true) (fun e => e.category) (fun e => e.amount)) [] := by
  unfold category_totals accumStep
  simp

theorem charsLe_total : ∀ (a b : List Char), charsLe a b = true ∨ charsLe b a = true := by
  intro a
  induction a with
  | nil => intro b; left; rfl
  | cons x xs ih =>
    intro b
    cases b with
    | nil => right; rfl
    | cons y ys =>
      rcases lt_trichotomy x y with h | h | h
      · left
        simp [charsLe, h]
      · subst h
        rcases ih ys with h2 | h2
        · left
          simp [charsLe, lt_irrefl, h2]
        · right
          simp [charsLe, lt_irrefl, h2]
      · right
        simp [charsLe, h]

theorem charsLe_trans :
    ∀ (a b c : List Char), charsLe a b = true → charsLe b c = true → charsLe a c = true := by
  intro a
  induction a with
  | nil => intro b c _ _; rfl
  | cons x xs ih =>
    intro b c h1 h2
    cases b with
    | nil => simp [charsLe] at h1
    | cons y ys =>
      cases c with
      | nil => simp [charsLe] at h2
      | cons z zs =>
        rcases lt_trichotomy x y with hxy | hxy | hxy
        · rcases lt_trichotomy y z with hyz | hyz | hyz
          · simp [charsLe, lt_trans hxy hyz]
          · subst hyz
            simp [charsLe, hxy]
          · simp [charsLe, hyz, asymm hyz] at h2
        · subst hxy
          simp [charsLe, lt_irrefl] at h1
          rcases lt_trichotomy x z with hyz | hyz | hyz
          · simp [charsLe, hyz]
          · subst hyz
            simp [charsLe, lt_irrefl] at h2 ⊢
            exact ih ys zs h1 h2
          · simp [charsLe, hyz, asymm hyz] at h2
        · simp [charsLe, hxy, asymm hxy] at h1

instance : IsTotal (String × ℚ) (fun a b => charsLe a.1.data b.1.data = true) :=
  ⟨fun a b => charsLe_total a.1.data b.1.data⟩

instance : IsTrans (String × ℚ) (fun a b => charsLe a.1.data b.1.data = true) :=
  ⟨fun a b c h1 h2 => charsLe_trans a.1.data b.1.data c.1.data h1 h2⟩

theorem charsLe_not_lt :
    ∀ (a b : List Char), charsLe a b = true → ¬ List.lt b a := by
  intro a
  induction a with
  | nil =>
    intro b _ hlt
    cases b with
    | nil => cases hlt
    | cons y ys => cases hlt
  | cons x xs ih =>
    intro b h hlt
    cases b with
    | nil => simp [charsLe] at h
    | cons y ys =>
      cases hlt with
      | head _ _ hyx =>
        simp [charsLe, asymm hyx, hyx] at h
      | tail hyx hxy hlt' =>
        simp [charsLe, hxy, hyx] at h
        exact ih ys h hlt'

theorem le_of_charsLe {a b : String} (h : charsLe a.data b.data = true) : a ≤ b := by
  rw [String.le_iff_toList_le]
  refine not_lt.1 (fun hlt => ?_)
  have hlex : List.Lex (· < ·) b.toList a.toList := hlt
  have hcore : List.lt b.data a.data := (List.lt_iff_lex_lt b.data a.data).mpr hlex
  exact charsLe_not_lt a.data b.data h hcore

theorem sortPairs_perm (l : List (String × ℚ)) : List.Perm (sortPairs l) l :=
  List.perm_insertionSort _ l

theorem sortPairs_sorted (l : List (String × ℚ)) :
    List.Sorted (fun a b => charsLe a.1.data b.1.data = true) (sortPairs l) :=
  List.sorted_insertionSort _ l

theorem sortPairs_sorted_le (l : List (String × ℚ)) :
    List.Sorted (fun a b => a.1 ≤ b.1) (sortPairs l) :=
  (sortPairs_sorted l).imp (fun h => le_of_charsLe h)

example : parseDate "2024-01-01" = some (2024, 1, 1) := by decide
example : parseDate "2024-1-5" = some (2024, 1, 5) := by decide
example : validate_date "2024-02-30" = false := by decide
example : validate_date "2024-02-29" = true := by decide
example : validate_date "2023-02-29" = false := by decide
example : weekdayYMD 2024 1 1 = 1 := by decide
example : isoWeek 2024 1 1 = 1 := by decide
example : isoWeek 2024 2 26 = 9 := by decide
example : isoWeek 2024 3 4 = 10 := by decide

theorem from_dict_to_dict (e : Expense) : from_dict (.obj (to_dict e)) = .ok e := rfl

theorem parseItems_save (es : List Expense) :
    parseItems (es.map (fun e => .obj (to_dict e))) = .ok es := by
  induction es with
  | nil => rfl
  | cons e tl ih => simp [parseItems, from_dict_to_dict, ih]

theorem from_dict_missing (fields : List (String × Json))
    (h : jlookup fields "amount" = none ∨ jlookup fields "category" = none
      ∨ jlookup fields "date" = none) :
    ∃ err, from_dict (.obj fields) = .error err := by
  rcases ha : jlookup fields "amount" with _ | a
  · exact ⟨"KeyError: amount", by simp [from_dict, ha]⟩
  · rcases hc : jlookup fields "category" with _ | c
    · exact ⟨"KeyError: category", by simp [from_dict, ha, hc]⟩
    · rcases hd : jlookup fields "date" with _ | d
      · exact ⟨"KeyError: date", by simp [from_dict, ha, hc, hd]⟩
      · rcases h with h | h | h <;> simp_all

theorem parseItems_error {items : List Json} {fields : List (String × Json)}
    (hmem : Json.obj fields ∈ items)
    (hmiss : jlookup fields "amount" = none ∨ jlookup fields "category" = none
      ∨ jlookup fields "date" = none) :
    ∃ err, parseItems items = .error err := by
  induction items with
  | nil => simp at hmem
  | cons it tl ih =>
    rcases List.mem_cons.mp hmem with he | hmem'
    · obtain ⟨err, herr⟩ := from_dict_missing fields hmiss
      exact ⟨err, by simp [parseItems, ← he, herr]⟩
    · cases hf : from_dict it with
      | error e => exact ⟨e, by simp [parseItems, hf]⟩
      | ok exp =>
        obtain ⟨err, herr⟩ := ih hmem'
        exact ⟨err, by simp [parseItems, hf, herr]⟩

theorem dash_not_mem {l : List Char} (h : ∀ c ∈ l, isDig c = true) : '-' ∉ l :=
  fun hm => isDig_ne_dash (h '-' hm) rfl

/-- Claim C1 (corrected): for every record whose date passes
`validate_date`, the weekly summary contains the pair made of that
record's bucket key and the total of its bucket, where the bucket key is
the f-string `f"{year}-W{week}"`: the date's calendar year and its
unpadded ISO-8601 week number; in particular the key for `2024-01-01` is
`"2024-W1"` (not `"2024-W01"`). -/
theorem C1_weekly_bucket :
    (∀ (es : List Expense) (e : Expense), e ∈ es → validate_date e.date = true →
      (bucketKeyOf .weekly e.date, bucketTotal es .weekly (bucketKeyOf .weekly e.date))
        ∈ time_summary es .weekly)
    ∧ bucketKeyOf .weekly "2024-01-01" = "2024-W1" := by
  constructor
  · intro es e hmem hv
    have hperm := sortPairs_perm (summarize es .weekly)
    refine hperm.mem_iff.mpr ?_
    have hl : alLookup (summarize es .weekly) (bucketKeyOf .weekly e.date)
        = some (bucketTotal es .weekly (bucketKeyOf .weekly e.date)) := by
      rw [summarize_eq_accum, foldl_accum_lookup]
      have hany : es.any (fun x => validate_date x.date
          && bucketKeyOf .weekly x.date == bucketKeyOf .weekly e.date) = true :=
        List.any_eq_true.mpr ⟨e, hmem, by simp [hv]⟩
      rw [if_pos hany]
      simp [alLookup, addVal, bucketTotal]
    exact alLookup_mem hl
  · decide

/-- Witness for C1 at a one-record ledger dated 2024-01-01. -/
theorem C1_weekly_bucket_witness :
    (bucketKeyOf .weekly "2024-01-01",
      bucketTotal [⟨100, "Food", "2024-01-01"⟩] .weekly (bucketKeyOf .weekly "2024-01-01"))
      ∈ time_summary [⟨100, "Food", "2024-01-01"⟩] .weekly :=
  C1_weekly_bucket.1 [⟨100, "Food", "2024-01-01"⟩] ⟨100, "Food", "2024-01-01"⟩
    (by simp) (by decide)

/-- Counterexample to C1 as stated: the weekly bucket key produced for a
record dated 2024-01-01 is `"2024-W1"`, not `"2024-W01"` (the code does
not zero-pad the week number). -/
theorem C1_counterexample :
    time_summary [⟨100, "Food", "2024-01-01"⟩] Granularity.weekly = [("2024-W1", 100)]
      ∧ "2024-W1" ≠ "2024-W01" := by
  decide

/-- Claim C2 (corrected): loading a JSON array containing an object that
misses a required key leaves the in-memory ledger as it was but ends in
an uncaught `KeyError` — the exception is not handled anywhere, so the
process terminates instead of surfacing a user-facing message. -/
theorem C2_missing_key_crashes :
    ∀ (current : List Expense) (items : List Json) (fields : List (String × Json)),
      Json.obj fields ∈ items →
      (jlookup fields "amount" = none ∨ jlookup fields "category" = none
        ∨ jlookup fields "date" = none) →
      (load_from_file current (.json (.arr items))).1 = current
        ∧ (load_from_file current (.json (.arr items))).2.isCrashed = true := by
  intro current items fields hmem hmiss
  obtain ⟨err, herr⟩ := parseItems_error hmem hmiss
  constructor
  · simp [load_from_file, herr]
  · simp [load_from_file, herr, LoadOutcome.isCrashed]

/-- Witness for C2 on a concrete file whose single entry lacks `amount`. -/
theorem C2_missing_key_crashes_witness :
    (load_from_file []
        (.json (.arr [.obj [("category", .str "Food"), ("date", .str "2024-01-01")]]))).1 = []
      ∧ (load_from_file []
        (.json (.arr [.obj [("category", .str "Food"), ("date", .str "2024-01-01")]]))).2.isCrashed
          = true :=
  C2_missing_key_crashes []
    [.obj [("category", .str "Food"), ("date", .str "2024-01-01")]]
    [("category", .str "Food"), ("date", .str "2024-01-01")]
    (by simp) (Or.inl rfl)

/-- Counterexample to C2 as stated: on this well-formed JSON file whose
entry lacks the `amount` key, `load_from_file` ends in the uncaught
`KeyError` (modelled as `crashed`), not in a handled, reported failure. -/
theorem C2_counterexample :
    load_from_file []
        (.json (.arr [.obj [("category", .str "Food"), ("date", .str "2024-01-01")]]))
      = ([], .crashed "KeyError: amount") := rfl

/-- Claim C3 (corrected): the chart aggregation `category_totals` groups
records by their exact category string (case-sensitively): looking up a
category text yields the sum of amounts of exactly-matching records, and
nothing is merged across casings. -/
theorem C3_exact_grouping :
    ∀ (es : List Expense) (c : String),
      alLookup (category_totals es) c =
        if es.any (fun e => e.category == c) then
          some (((es.filter (fun e => e.category == c)).map (·.amount)).sum)
        else none := by
  intro es c
  rw [category_totals_eq_accum, foldl_accum_lookup]
  simp [alLookup, addVal]

/-- Counterexample to C3 as stated: two records whose categories differ
only in letter case produce two distinct category–total pairs, not one. -/
theorem C3_counterexample :
    category_totals [⟨10, "Food", "2024-01-01"⟩, ⟨5, "food", "2024-01-02"⟩]
        = [("Food", 10), ("food", 5)]
      ∧ "Food".data.map Char.toLower = "food".data.map Char.toLower
      ∧ (category_totals [⟨10, "Food", "2024-01-01"⟩, ⟨5, "food", "2024-01-02"⟩]).length ≠ 1 := by
  decide

/-- Claim C4 (corrected): for every ledger and granularity the
time-bucketed summary is emitted sorted by bucket key in ascending
lexical order (for weekly buckets this lexical order does not coincide
with chronological order, see the counterexample). -/
theorem C4_sorted_output :
    ∀ (es : List Expense) (g : Granularity),
      List.Sorted (fun a b => a.1 ≤ b.1) (time_summary es g) := by
  intro es g
  exact sortPairs_sorted_le (summarize es g)

/-- Counterexample to C4 as stated: with records in ISO weeks 9 and 10 of
2024, the emitted weekly summary lists bucket `"2024-W10"` before
`"2024-W9"` although the dates in `"2024-W9"` come chronologically
first — lexical order of the unpadded weekly keys is not chronological. -/
theorem C4_counterexample :
    time_summary [⟨100, "Food", "2024-02-26"⟩, ⟨25, "Bus", "2024-03-04"⟩] Granularity.weekly
        = [("2024-W10", 25), ("2024-W9", 100)]
      ∧ bucketKeyOf .weekly "2024-02-26" = "2024-W9"
      ∧ bucketKeyOf .weekly "2024-03-04" = "2024-W10"
      ∧ dateOrdinal "2024-02-26" < dateOrdinal "2024-03-04" := by
  decide

/-- Claim C5 (corrected): on every string matching the strict
`YYYY-MM-DD` grammar, `validate_date` is true exactly when the digits
denote a real calendar date (year at least 1, month 1–12, day within the
month); the spec's three sample evaluations hold, but `validate_date` is
not confined to the strict grammar: it also accepts one-digit month/day
forms such as `"2024-1-5"`, because `strptime` is lenient. -/
theorem C5_validate_characterization :
    (∀ s : String, specStrictDateGrammar s = true →
      (validate_date s = true ↔
        specRealDate (strictVals s).1 (strictVals s).2.1 (strictVals s).2.2 = true))
    ∧ validate_date "2024-02-30" = false
    ∧ validate_date "2024-02-29" = true
    ∧ validate_date "2023-02-29" = false
    ∧ validate_date "2024-1-5" = true := by
  refine ⟨?_, by decide, by decide, by decide, by decide⟩
  intro s h
  obtain ⟨data⟩ := s
  rcases data with _ | ⟨y1, _ | ⟨y2, _ | ⟨y3, _ | ⟨y4, _ | ⟨c1, _ | ⟨m1, _ | ⟨m2, _ | ⟨c2,
    _ | ⟨d1, _ | ⟨d2, _ | ⟨x, rest⟩⟩⟩⟩⟩⟩⟩⟩⟩⟩⟩
  all_goals simp only [specStrictDateGrammar] at h
  all_goals try exact Bool.noConfusion h
  simp only [Bool.and_eq_true, beq_iff_eq] at h
  obtain ⟨⟨⟨⟨⟨⟨⟨⟨⟨hy1, hy2⟩, hy3⟩, hy4⟩, hc1⟩, hm1⟩, hm2⟩, hc2⟩, hd1⟩, hd2⟩ := h
  subst hc1
  subst hc2
  have hsplit : splitDash [y1, y2, y3, y4, '-', m1, m2, '-', d1, d2]
      = [[y1, y2, y3, y4], [m1, m2], [d1, d2]] := by
    have e1 : [y1, y2, y3, y4, '-', m1, m2, '-', d1, d2]
        = [y1, y2, y3, y4] ++ '-' :: ([m1, m2] ++ '-' :: [d1, d2]) := rfl
    rw [e1, splitDash_append _ _ (dash_not_mem (by simp [hy1, hy2, hy3, hy4])),
      splitDash_append _ _ (dash_not_mem (by simp [hm1, hm2])),
      splitDash_no_dash _ (dash_not_mem (by simp [hd1, hd2]))]
  show (parseDate ⟨[y1, y2, y3, y4, '-', m1, m2, '-', d1, d2]⟩).isSome = true ↔ _
  rw [parseDate]
  simp only [String.data] at hsplit ⊢
  rw [hsplit]
  simp only [strictVals, specRealDate]
  have hall : [y1, y2, y3, y4].all isDig = true := by simp [hy1, hy2, hy3, hy4]
  have hallm : [m1, m2].all isDig = true := by simp [hm1, hm2]
  have halld : [d1, d2].all isDig = true := by simp [hd1, hd2]
  simp only [List.length_cons, List.length_nil, hall, hallm, halld]
  have hle := daysInMonth_le_31 (digitsVal [y1, y2, y3, y4]) (digitsVal [m1, m2])
  constructor
  · intro hv
    split at hv
    · split at hv
      · rename_i hinner
        simp only [Bool.and_eq_true, decide_eq_true_eq] at hinner ⊢
        omega
      · exact Bool.noConfusion hv
    · exact Bool.noConfusion hv
  · intro hr
    simp only [Bool.and_eq_true, decide_eq_true_eq] at hr
    split
    · split
      · rfl
      · rename_i hinner
        exfalso
        refine hinner ?_
        simp only [Bool.and_eq_true, decide_eq_true_eq]
        omega
    · rename_i houter
      simp at houter

/-- Witness for C5: the characterization applied to the strictly
formatted string "2024-02-29". -/
theorem C5_validate_characterization_witness :
    validate_date "2024-02-29" = true ↔
      specRealDate (strictVals "2024-02-29").1 (strictVals "2024-02-29").2.1
        (strictVals "2024-02-29").2.2 = true :=
  C5_validate_characterization.1 "2024-02-29" (by decide)

/-- Counterexample to C5 as stated: `validate_date` accepts "2024-1-5",
which does not match the strict `YYYY-MM-DD` grammar, so `validate_date`
is not equivalent to that grammar plus calendar validity. -/
theorem C5_counterexample :
    validate_date "2024-1-5" = true ∧ specStrictDateGrammar "2024-1-5" = false := by
  decide

/-- Claim C6 (confirmed): saving any in-memory sequence of records and
immediately loading the saved document reproduces exactly that sequence
(same order and field values), whatever the previous ledger was. -/
theorem C6_round_trip :
    ∀ (current es : List Expense),
      load_from_file current (.json (save_content es)) = (es, .loaded es) := by
  intro current es
  simp [load_from_file, save_content, parseItems_save]

/-- Claim C7 (confirmed): an add whose non-empty date input fails
`validate_date` is rejected as an invalid date, leaving the ledger
unchanged and triggering no save; on a valid date the record is appended
at the end and a save is triggered. -/
theorem C7_add_validation :
    ∀ (es : List Expense) (a : ℚ) (c d today : String), d ≠ "" →
      (validate_date d = false →
        add_expenses es (some a) c d today = ⟨es, false, .invalidDate⟩)
      ∧ (validate_date d = true →
        add_expenses es (some a) c d today = ⟨es ++ [⟨a, c, d⟩], true, .added⟩) := by
  intro es a c d today hd
  constructor
  · intro hv
    simp [add_expenses, hd, hv]
  · intro hv
    simp [add_expenses, hd, hv]

/-- Witness for C7: an invalid month-13 date is rejected and the empty
ledger stays empty with no save. -/
theorem C7_add_validation_witness :
    add_expenses [] (some 5) "Food" "2024-13-01" "2024-06-01" = ⟨[], false, .invalidDate⟩ :=
  (C7_add_validation [] 5 "Food" "2024-13-01" "2024-06-01" (by decide)).1 (by decide)

/-- Claim C8 (confirmed): in an edit of a validly selected record, an
unparsable new amount keeps the previous amount, an invalid new date
keeps the previous date, the non-empty new category still replaces the
old one, and the save is still triggered. -/
theorem C8_partial_edit :
    ∀ (es : List Expense) (i : Nat) (e : Expense) (c d : String),
      1 ≤ i → i ≤ es.length → es[i-1]? = some e → c ≠ "" → d ≠ "" →
      validate_date d = false →
      edit_expense es i (some none) c d = (es.set (i-1) ⟨e.amount, c, e.date⟩, true) := by
  intro es i e c d h1 h2 he hc hdne hdv
  have hne : es.isEmpty = false := by
    cases es
    · simp at h2
      omega
    · rfl
  obtain ⟨hlt, hval⟩ := List.getElem?_eq_some_iff.mp he
  rw [edit_expense, hne]
  simp only [Bool.false_eq_true, if_false]
  rw [dif_pos ⟨h1, h2⟩]
  have hget : es.get ⟨i-1, by omega⟩ = e := by
    simpa [List.get_eq_getElem] using hval
  rw [hget]
  have hfields : edit_fields e (some none) c d = ⟨e.amount, c, e.date⟩ := by
    simp [edit_fields, hc, hdne, hdv]
  rw [hfields]

/-- Witness for C8 on a one-record ledger: bad amount and bad date are
kept, the category is replaced, and the save flag is set. -/
theorem C8_partial_edit_witness :
    edit_expense [⟨1, "a", "2024-01-01"⟩] 1 (some none) "Food" "2024-99-99"
      = ([⟨1, "Food", "2024-01-01"⟩], true) := by
  rw [C8_partial_edit [⟨1, "a", "2024-01-01"⟩] 1 ⟨1, "a", "2024-01-01"⟩ "Food" "2024-99-99"
    (by decide) (by decide) (by decide) (by decide) (by decide) (by decide)]
  decide

/-- Claim C9 (confirmed): the read-only aggregations — total for a
category, overall total, time-bucketed summary (all via `view_summary`)
and the chart's category totals (`graphical_summary`) — return the
ledger unchanged for every ledger state and every input. -/
theorem C9_read_only :
    ∀ (es : List Expense) (req : SummaryReq),
      (view_summary es req).1 = es ∧ (graphical_summary es).1 = es := by
  intro es req
  constructor
  · cases req <;> by_cases h : es.isEmpty <;> simp [view_summary, h]
  · by_cases h : es.isEmpty <;> simp [graphical_summary, h]

/-- Claim C10 (confirmed): when every record's date passes
`validate_date`, the values of the time-bucketed summary sum to the
overall total, for each granularity — bucketing neither loses nor
double-counts any amount. -/
theorem C10_bucket_partition :
    ∀ (es : List Expense) (g : Granularity),
      (∀ e ∈ es, validate_date e.date = true) →
      ((time_summary es g).map (·.2)).sum = total_overall es := by
  intro es g hv
  have hperm : List.Perm (time_summary es g) (summarize es g) := sortPairs_perm _
  rw [(hperm.map (fun x => x.2)).sum_eq]
  rw [summarize_eq_accum, foldl_accum_sum]
  have hfilter : es.filter (fun e => validate_date e.date) = es :=
    List.filter_eq_self.mpr (fun e he => hv e he)
  simp [hfilter, total_overall]

/-- Witness for C10 on a two-record, two-bucket monthly summary. -/
theorem C10_bucket_partition_witness :
    ((time_summary [⟨100, "Food", "2024-01-01"⟩, ⟨25, "Bus", "2024-03-04"⟩]
        Granularity.monthly).map (·.2)).sum
      = total_overall [⟨100, "Food", "2024-01-01"⟩, ⟨25, "Bus", "2024-03-04"⟩] :=
  C10_bucket_partition [⟨100, "Food", "2024-01-01"⟩, ⟨25, "Bus", "2024-03-04"⟩]
    Granularity.monthly (by decide)
